import Mathlib

/-!
Shallow embedding of the archie build coordinator (Rust) and proofs about it.

The embedding mirrors the coordinator's source files:
  * `state.rs`      — the persistent package map and its accessors;
  * `orchestrator.rs` — build dispatch, container bookkeeping;
  * `scheduler.rs`  — update checks and failure retries;
  * `repository.rs` — the repo-add / repo-remove handlers;
  * `web_server.rs` — the HTTP handlers `add_package`, `get_key`,
    `receive_artifacts` and filename sanitization.

Rust `HashMap`s are modelled as association lists whose insert replaces every
entry with the same key (so key uniqueness is preserved along any run), Rust
`HashSet`s as duplicate-free lists, and strings as Lean `String`s or lists of
characters.  Effects (disk persistence, bus messages) are reified as explicit
action lists.
-/

namespace Archie

/-- A package is identified by its name (`messages.rs`: `pub type Package = String`). -/
abbrev Package := String

/-- `state.rs`: `Build { time: i64, files: Vec<String> }`. -/
structure Build where
  time : Int
  files : List String
deriving DecidableEq, Repr

/-- `state.rs`: `PackageInfo { url, is_dependency, dependencies, build }`. -/
structure PackageInfo where
  url : Option String
  is_dependency : Bool
  dependencies : List Package
  build : Option Build
deriving DecidableEq, Repr

/-- The persistent map `package_status : HashMap<Package, PackageInfo>`,
modelled as an association list. -/
abbrev PackageMap := List (Package × PackageInfo)

/-- Association-list lookup, the model of `HashMap::get`. -/
def lookupPkg : PackageMap → Package → Option PackageInfo
  | [], _ => none
  | (k, v) :: rest, p => if k = p then some v else lookupPkg rest p

/-- `query_package.rs`: `PackageData { name, last_modified, depends }`. -/
structure PackageData where
  name : Package
  last_modified : Int
  depends : List Package
deriving DecidableEq, Repr

/-- `messages.rs`: the broadcast-bus message type. -/
inductive Message where
  | AddPackages (packages : List Package)
  | AddPackageUrl (url : String) (data : PackageData)
  | AddDependencies (packages : List Package)
  | RemovePackages (packages : List Package)
  | BuildPackage (p : Package)
  | BuildSuccess (p : Package)
  | BuildFailure (p : Package)
  | ArtifactsUploaded (package : Package) (files : List String) (build_time : Int)
deriving DecidableEq, Repr

/-- `state.rs` `are_dependencies_met`: the package is known and every one of
its dependencies has a `build` that `is_some`. -/
def are_dependencies_met (st : PackageMap) (p : Package) : Bool :=
  match lookupPkg st p with
  | none => false
  | some info =>
      info.dependencies.all fun d =>
        match lookupPkg st d with
        | none => false
        | some di => di.build.isSome

/-- `state.rs` `get_build_url`: the stored URL, or the AUR git URL synthesized
from the package name. -/
def get_build_url (st : PackageMap) (p : Package) : Option String :=
  (lookupPkg st p).map fun info =>
    info.url.getD ("https://aur.archlinux.org/" ++ p ++ ".git")

/-! ## Orchestrator (`orchestrator.rs`) -/

/-- `orchestrator.rs` `PackageToBuild { package, url }`, the entries of the
`packages_to_build` queue. -/
structure PackageToBuild where
  package : Package
  url : String
deriving DecidableEq, Repr

/-- The orchestrator's mutable state: the pending-build queue, the
`active_containers : HashMap<Package, String>` map, and the ephemeral
`active_containers : HashSet<String>` of short IDs kept in `state.rs`. -/
structure OrchState where
  packagesToBuild : List PackageToBuild
  activeContainers : List (Package × String)
  runningShortIds : List String
deriving DecidableEq, Repr

/-- Lookup in the orchestrator's `active_containers` map. -/
def lookupContainer : List (Package × String) → Package → Option String
  | [], _ => none
  | (k, v) :: rest, p => if k = p then some v else lookupContainer rest p

/-- `orchestrator.rs` `run`, `RemovePackages` arm: find the position of the
first queued build for the package and remove it (`position` + `remove`). -/
def removeFirstBuild : List PackageToBuild → Package → List PackageToBuild
  | [], _ => []
  | b :: rest, p => if b.package = p then rest else b :: removeFirstBuild rest p

/-- `orchestrator.rs` `start_build_container`: the short ID registered in the
ephemeral state is `response.id[0..12]`. -/
def shortIdOf (id : String) : String := id.take 12

/-- `state.rs` `add_running_container`: `HashSet::insert` of a short ID. -/
def insertShortId (x : String) (s : List String) : List String :=
  if s.contains x then s else x :: s

/-- `HashMap::insert` for `active_containers`: replaces any entry with the
same key. -/
def insertContainer (k : Package) (v : String) (m : List (Package × String)) :
    List (Package × String) :=
  (k, v) :: m.filter fun e => ¬(e.1 = k)

/-- The orchestrator's message phase (`run`, lines 69–98): a `BuildPackage`
message pushes the package (with `get_build_url(...).unwrap_or_default()`)
onto the queue; a `RemovePackages` message drops the first queued build of
each named package and stops/forgets its active container.  Note that this
arm does not touch the ephemeral short-ID set. -/
def orchHandleMessage (st : PackageMap) (msg : Option Message) (s : OrchState) : OrchState :=
  match msg with
  | some (Message.BuildPackage p) =>
      { s with packagesToBuild :=
          s.packagesToBuild ++ [⟨p, (get_build_url st p).getD ""⟩] }
  | some (Message.RemovePackages ps) =>
      ps.foldl (fun s p =>
        { s with
          packagesToBuild := removeFirstBuild s.packagesToBuild p,
          activeContainers := s.activeContainers.filter fun e => ¬(e.1 = p) }) s
  | _ => s

/-- The scan of `packages_to_build` (`run`, lines 100–109): the first entry
whose dependencies are met, together with the queue with that entry removed
(`packages_to_build.remove(index)`). -/
def firstEligible (st : PackageMap) : List PackageToBuild →
    Option (PackageToBuild × List PackageToBuild)
  | [] => none
  | b :: rest =>
      if are_dependencies_met st b.package then some (b, rest)
      else
        match firstEligible st rest with
        | none => none
        | some (x, rest') => some (x, b :: rest')

/-- The orchestrator's dispatch phase (`run`, lines 99–115): only when
`active_containers.len() < max_builders`, take the first eligible queued
build, start a container for it (its Docker-assigned ID is the `newId`
argument), record it in `active_containers` and record its short ID in the
ephemeral set. -/
def orchDispatch (maxBuilders : Nat) (st : PackageMap) (newId : String) (s : OrchState) :
    OrchState × Option PackageToBuild :=
  if s.activeContainers.length < maxBuilders then
    match firstEligible st s.packagesToBuild with
    | some (b, rest) =>
        ({ packagesToBuild := rest,
           activeContainers := insertContainer b.package newId s.activeContainers,
           runningShortIds := insertShortId (shortIdOf newId) s.runningShortIds },
         some b)
    | none => (s, none)
  else (s, none)

/-- `orchestrator.rs` `clean_up_containers`: each active container reported
`EXITED` (the `exited` input pairs packages with exit codes) is removed from
the map and its short ID from the ephemeral set; a non-zero exit code emits
`BuildFailure`. -/
def orchCleanup : List (Package × Int) → OrchState → OrchState × List Message
  | [], s => (s, [])
  | pe :: rest, s =>
      match lookupContainer s.activeContainers pe.1 with
      | none => orchCleanup rest s
      | some id =>
          let s' : OrchState :=
            { s with
              activeContainers := s.activeContainers.filter fun e => ¬(e.1 = pe.1),
              runningShortIds := s.runningShortIds.filter fun x => ¬(x = shortIdOf id) }
          let r := orchCleanup rest s'
          (r.1, (if pe.2 ≠ 0 then [Message.BuildFailure pe.1] else []) ++ r.2)

/-- The external inputs consumed by one iteration of the orchestrator loop. -/
structure TickInput where
  msg : Option Message
  newId : String
  exited : List (Package × Int)
deriving Repr

/-- One iteration of the orchestrator loop (`run`, lines 47–118): message
phase, then dispatch phase, then container cleanup. -/
def orchTick (maxBuilders : Nat) (st : PackageMap) (inp : TickInput) (s : OrchState) :
    OrchState × Option PackageToBuild × List Message :=
  let s1 := orchHandleMessage st inp.msg s
  let (s2, dispatched) := orchDispatch maxBuilders st inp.newId s1
  let (s3, msgs) := orchCleanup inp.exited s2
  (s3, dispatched, msgs)

/-- The orchestrator loop run over a list of tick inputs. -/
def orchRun (maxBuilders : Nat) (st : PackageMap) : List TickInput → OrchState → OrchState
  | [], s => s
  | inp :: rest, s => orchRun maxBuilders st rest (orchTick maxBuilders st inp s).1

/-- The orchestrator's initial state: empty queue, no containers. -/
def orchInit : OrchState := ⟨[], [], []⟩

/-! ## Scheduler (`scheduler.rs`) -/

/-- `state.rs` `tracked_packages_aur`: the names whose `url` is `None`. -/
def tracked_packages_aur (m : PackageMap) : List Package :=
  (m.filter fun e => e.2.url.isNone).map Prod.fst

/-- `state.rs` `get_build_times`: for every entry of the map whose name is in
the query set and whose `build` is present, its name paired with
`build.time`. -/
def get_build_times (m : PackageMap) (packages : List Package) : List (Package × Int) :=
  m.filterMap fun e =>
    if packages.contains e.1 then (e.2.build.map fun b => (e.1, b.time)) else none

/-- Lookup in the `last_modified : HashMap<String, i64>` returned by the AUR
info query. -/
def lookupTime : List (Package × Int) → Package → Option Int
  | [], _ => none
  | (k, v) :: rest, p => if k = p then some v else lookupTime rest p

/-- `scheduler.rs` `check_aur_packages`: the `BuildPackage` emissions of the
AUR half of an update-check pass.  Packages with a recorded build are emitted
when the AUR `last_modified` is strictly newer; packages never built are the
tracked AUR set minus those with build times and are emitted unconditionally.
The map `last_modified` is the (successful) AUR response. -/
def check_aur_packages (m : PackageMap) (last_modified : List (Package × Int)) :
    List Package :=
  let tracked := tracked_packages_aur m
  let build_times := get_build_times m tracked
  let rebuilt := build_times.filterMap fun e =>
    match lookupTime last_modified e.1 with
    | some lm => if lm > e.2 then some e.1 else none
    | none => none
  let never_built := tracked.filter fun p => ¬(build_times.map Prod.fst).contains p
  rebuilt ++ never_built

/-- The build time recorded for a package, if any. -/
def buildTimeOf (m : PackageMap) (p : Package) : Option Int :=
  ((lookupPkg m p).bind PackageInfo.build).map Build.time

/-- The scheduler's `retries : HashMap<Package, u8>` map, as an association
list; the values are the `u8` attempt counts, represented as naturals below
256 (every value the map ever holds is produced by `incrRetry`, which wraps
modulo 256). -/
abbrev RetriesMap := List (Package × Nat)

/-- Lookup in the retries map. -/
def getRetry : RetriesMap → Package → Option Nat
  | [], _ => none
  | (k, v) :: rest, p => if k = p then some v else getRetry rest p

/-- `HashMap::insert` for the retries map: replaces any entry with the key. -/
def setRetry (p : Package) (v : Nat) (m : RetriesMap) : RetriesMap :=
  (p, v) :: m.filter fun e => ¬(e.1 = p)

/-- `scheduler.rs` `run`, `BuildFailure` arm: increment the package's retry
count, or insert it at 1.  The count is a `u8`, so `*retries += 1` wraps
modulo 256 (release-mode Rust semantics); an absent entry is inserted at
`(0 + 1) % 256 = 1`. -/
def incrRetry (m : RetriesMap) (p : Package) : RetriesMap :=
  setRetry p (((getRetry m p).getD 0 + 1) % 256) m

/-- `scheduler.rs` `run`, `BuildSuccess` arm: drop the package's entry. -/
def removeRetry (m : RetriesMap) (p : Package) : RetriesMap :=
  m.filter fun e => ¬(e.1 = p)

/-- `scheduler.rs` `run`, lines 43–51: a retry pass re-emits `BuildPackage`
for every entry whose attempt count is strictly below `max_retries`, without
changing the map. -/
def retry_pass_emits (maxRetries : Nat) (m : RetriesMap) : List Package :=
  (m.filter fun e => e.2 < maxRetries).map Prod.fst

/-- The `BuildPackage` emissions of one scheduler loop iteration, as a
function of which timers fired: the update-check pass when
`now >= next_update_check` (its AUR half; `last_modified` is the AUR
response), and the retry pass when `now >= next_retry_check`. -/
def scheduler_tick_emissions (m : PackageMap) (last_modified : List (Package × Int))
    (retries : RetriesMap) (maxRetries : Nat) (updateDue retryDue : Bool) :
    List Package :=
  (if updateDue then check_aur_packages m last_modified else []) ++
    (if retryDue then retry_pass_emits maxRetries retries else [])

/-- The scheduler events that touch the retries map within one update cycle:
a `BuildFailure(p)` message, a `BuildSuccess(p)` message, a retry pass
(`now >= next_retry_check`), and a successful update pass (which clears the
map and starts the next cycle). -/
inductive SchedEvent where
  | buildFailure (p : Package)
  | buildSuccess (p : Package)
  | retryPass
  | updateSuccess
deriving DecidableEq, Repr

/-- The effect of one scheduler event on the retries map, together with the
failure-retry `BuildPackage` emissions it causes. -/
def schedRetryStep (maxRetries : Nat) (m : RetriesMap) : SchedEvent → RetriesMap × List Package
  | SchedEvent.buildFailure p => (incrRetry m p, [])
  | SchedEvent.buildSuccess p => (removeRetry m p, [])
  | SchedEvent.retryPass => (m, retry_pass_emits maxRetries m)
  | SchedEvent.updateSuccess => ([], [])

/-- Run a sequence of scheduler events, accumulating the failure-retry
emissions. -/
def schedRetryRun (maxRetries : Nat) (m : RetriesMap) :
    List SchedEvent → RetriesMap × List Package
  | [] => (m, [])
  | e :: rest =>
      let step := schedRetryStep maxRetries m e
      let run := schedRetryRun maxRetries step.1 rest
      (run.1, step.2 ++ run.2)

/-- `state.rs` `track_package_inner`: `HashMap::insert` of a fresh
`PackageInfo` with `build = None`. -/
def track_package_inner (m : PackageMap) (package : Package) (url : Option String)
    (dependencies : List Package) (is_dependency : Bool) : PackageMap :=
  (package, ⟨url, is_dependency, dependencies, none⟩) :: m.filter fun e => ¬(e.1 = package)

/-- `state.rs` `track_package`. -/
def track_package (m : PackageMap) (package : Package) (dependencies : List Package)
    (is_dependency : Bool) : PackageMap :=
  track_package_inner m package none dependencies is_dependency

/-- `state.rs` `track_package_url`. -/
def track_package_url (m : PackageMap) (package : Package) (url : String)
    (dependencies : List Package) : PackageMap :=
  track_package_inner m package (some url) dependencies false

/-- `scheduler.rs` `add_package_url`: emit `AddDependencies(data.depends)`,
track the package under its URL (no is-tracked check), emit
`BuildPackage(data.name)`.  Returns the new map and the emitted messages in
order. -/
def sched_add_package_url (m : PackageMap) (url : String) (data : PackageData) :
    PackageMap × List Message :=
  (track_package_url m data.name url data.depends,
   [Message.AddDependencies data.depends, Message.BuildPackage data.name])

/-! ## Repository manager (`repository.rs`) -/

/-- `state.rs` `get_files`: the artifact files recorded for the package
(empty when untracked or never built). -/
def get_files (m : PackageMap) (p : Package) : List String :=
  (m.filterMap fun e =>
    if e.1 = p then e.2.build.map Build.files else none).flatten

/-- `state.rs` `build_package`: set the `build` record of the package if it
is tracked; an untracked package is silently left alone.  (`save_state` then
persists the resulting map either way.) -/
def build_package (m : PackageMap) (p : Package) (build_time : Int)
    (files : List String) : PackageMap :=
  m.map fun e =>
    if e.1 = p then (e.1, { e.2 with build := some ⟨build_time, files⟩ }) else e

/-- The externally visible effects of the repository manager, in program
order: a write of the serialized state JSON, and a bus message. -/
inductive RepoAction where
  | persistState (m : PackageMap)
  | emit (msg : Message)
deriving DecidableEq, Repr

/-- `repository.rs` `run_repository`, `ArtifactsUploaded` arm: when the
`repo-add` invocation succeeds (`repoAddOk`), write the build record and
persist the state (`state::build_package`), then emit `BuildSuccess`; when it
fails, log and drop the message.  Returns the final in-memory map and the
effects in order. -/
def handleArtifactsUploaded (m : PackageMap) (repoAddOk : Bool) (p : Package)
    (files : List String) (build_time : Int) : PackageMap × List RepoAction :=
  if repoAddOk then
    let m' := build_package m p build_time files
    (m', [RepoAction.persistState m', RepoAction.emit (Message.BuildSuccess p)])
  else (m, [])

/-- The observable outcome of the `RemovePackages` arm of the repository
manager: whether `repo-remove` was invoked, with which package names, and
which artifact files were deleted from disk. -/
structure RemoveResult where
  repoRemoveInvoked : Bool
  removedNames : List Package
  deletedFiles : List String
deriving DecidableEq, Repr

/-- `repository.rs` `remove_from_repo`: if `<repo>.db.tar.zst` does not
exist, return `false` immediately — neither invoking `repo-remove` nor
deleting any file.  Otherwise invoke `repo-remove` with the package names and
then delete every accumulated file. -/
def remove_from_repo (dbExists : Bool) (files : List String) (packages : List Package) :
    RemoveResult :=
  if dbExists then ⟨true, packages, files⟩ else ⟨false, [], []⟩

/-- `repository.rs` `run_repository`, `RemovePackages` arm: accumulate each
named package's stored files (skipping packages with none), then call
`remove_from_repo`. -/
def handleRemovePackages (m : PackageMap) (dbExists : Bool) (packages : List Package) :
    RemoveResult :=
  let acc := packages.foldl
    (fun (acc : List String × List Package) p =>
      let package_files := get_files m p
      if ¬(package_files = []) then (acc.1 ++ package_files, acc.2 ++ [p]) else acc)
    ([], [])
  remove_from_repo dbExists acc.1 acc.2

/-! ## HTTP ingress (`web_server.rs`) -/

/-- `web_server.rs`: the response body of `POST /packages/add`. -/
structure AddPackagesResponse where
  added : List Package
  not_found : List Package
  already_tracked : List Package
deriving DecidableEq, Repr

/-- `web_server.rs` `add_package`: `registryExists` is the set returned by
`do_packages_exist` (the names the AUR info query knows), `tracked` the
currently tracked names.  `not_found = requested \ registryExists`,
`already_tracked = tracked ∩ requested`, `to_be_added = requested \ tracked`;
an `AddPackages(to_be_added)` message is sent iff `to_be_added` is
non-empty, and the response reports `added = to_be_added`. -/
def add_package_handler (registryExists tracked requested : List Package) :
    AddPackagesResponse × Option Message :=
  let not_found := requested.filter fun x => ¬registryExists.contains x
  let already_tracked := tracked.filter fun x => requested.contains x
  let to_be_added := requested.filter fun x => ¬tracked.contains x
  (⟨to_be_added, not_found, already_tracked⟩,
   if ¬(to_be_added = []) then some (Message.AddPackages to_be_added) else none)

/-- The possible responses of `GET /key`. -/
inductive KeyResponse where
  | ok (key : List Nat)
  | badRequest
  | unauthorized
  | internalError
deriving DecidableEq, Repr

/-- `web_server.rs` `get_key`: a missing (or non-string) `hostname` header is
`400 BAD_REQUEST`; a hostname that is not in the ephemeral active-container
set is `401 UNAUTHORIZED`; otherwise the bytes of the key file are returned
(`500` if the read fails, modelled by `keyFile = none`). -/
def get_key (hostname : Option String) (activeShortIds : List String)
    (keyFile : Option (List Nat)) : KeyResponse :=
  match hostname with
  | none => KeyResponse.badRequest
  | some h =>
      if ¬activeShortIds.contains h then KeyResponse.unauthorized
      else
        match keyFile with
        | some k => KeyResponse.ok k
        | none => KeyResponse.internalError

/-- Split a character list on `'/'` (accumulator holds the current segment in
reverse).  This is the component split underlying Rust's
`Path::file_name`. -/
def splitSegsAux (cur : List Char) : List Char → List (List Char)
  | [] => [cur.reverse]
  | c :: rest =>
      if c = '/' then cur.reverse :: splitSegsAux [] rest
      else splitSegsAux (c :: cur) rest

/-- Split a path into its slash-separated segments. -/
def splitSegs (cs : List Char) : List (List Char) := splitSegsAux [] cs

/-- Rust `Path::file_name` on Unix: the last path component after dropping
empty and `"."` segments; `None` when there is no such component or it is
`".."` (a `ParentDir` component). -/
def rustFileName (cs : List Char) : Option (List Char) :=
  ((splitSegs cs).filter fun t => decide (t ≠ [] ∧ t ≠ ['.'])).getLast?.bind
    fun t => if t = ['.', '.'] then none else some t

/-- `web_server.rs` `sanitize_filename`:
`Path::new(name).file_name().unwrap_or("default")`. -/
def sanitize_filename (cs : List Char) : List Char :=
  (rustFileName cs).getD ("default".data)

/-- `repository.rs`: `REPO_DIR = "/output/"`. -/
def REPO_DIR : List Char := "/output/".data

/-- `PathBuf::join`: an absolute right operand replaces the path, otherwise
the operands are joined with a separator unless one is already present. -/
def pathJoin (a b : List Char) : List Char :=
  if b.head? = some '/' then b
  else if a.getLast? = some '/' then a ++ b
  else a ++ '/' :: b

/-- `web_server.rs` `receive_artifacts`: the on-disk path of an uploaded file,
`PathBuf::new().join(REPO_DIR).join(sanitize_filename(name))`. -/
def receiveArtifactPath (name : List Char) : List Char :=
  pathJoin REPO_DIR (sanitize_filename name)

/-! ## General lemmas about the association-list model -/

theorem mem_of_getLastEq {α : Type} {l : List α} {x : α} (h : l.getLast? = some x) :
    x ∈ l := by
  rcases List.mem_getLast?_eq_getLast (Option.mem_def.mpr h) with ⟨hne, hx⟩
  exact hx ▸ List.getLast_mem hne

theorem mem_of_headEq {α : Type} {l : List α} {x : α} (h : l.head? = some x) :
    x ∈ l := by
  cases l with
  | nil => cases h
  | cons a rest =>
      simp only [List.head?] at h
      injection h with h2
      subst h2
      exact List.mem_cons_self a rest

theorem lookupPkg_filter_ne (m : PackageMap) (p q : Package) (h : ¬q = p) :
    lookupPkg (m.filter fun e => ¬(e.1 = p)) q = lookupPkg m q := by
  induction m with
  | nil => rfl
  | cons e rest ih =>
      rw [List.filter_cons]
      by_cases hp : e.1 = p
      · have hd : (decide ¬(e.1 = p)) = false := by simp [hp]
        rw [hd, if_neg Bool.false_ne_true]
        have hq : ¬e.1 = q := by rw [hp]; exact fun hqq => h hqq.symm
        conv_rhs => rw [lookupPkg]
        rw [if_neg hq]
        exact ih
      · have hd : (decide ¬(e.1 = p)) = true := by simp [hp]
        rw [hd, if_pos rfl]
        rw [lookupPkg, lookupPkg]
        by_cases hq : e.1 = q
        · rw [if_pos hq, if_pos hq]
        · rw [if_neg hq, if_neg hq]
          exact ih

theorem lookupPkg_of_mem_nodup (m : PackageMap) (k : Package) (v : PackageInfo)
    (hnd : (m.map Prod.fst).Nodup) (hmem : (k, v) ∈ m) :
    lookupPkg m k = some v := by
  induction m with
  | nil => cases hmem
  | cons e rest ih =>
      rcases List.mem_cons.mp hmem with he | he
      · subst he; simp [lookupPkg]
      · have hk : k ∈ rest.map Prod.fst := List.mem_map.mpr ⟨(k, v), he, rfl⟩
        have hne : ¬e.1 = k := by
          intro hek
          exact (List.nodup_cons.mp hnd).1 (hek ▸ hk)
        simp only [lookupPkg, if_neg hne]
        exact ih (List.nodup_cons.mp hnd).2 he

/-! ## Claim C9: artifact filename sanitization -/

theorem splitSegsAux_no_slash (l : List Char) :
    ∀ cur, '/' ∉ cur → ∀ t ∈ splitSegsAux cur l, '/' ∉ t := by
  induction l with
  | nil =>
      intro cur hcur t ht
      simp only [splitSegsAux, List.mem_singleton] at ht
      subst ht
      simpa using hcur
  | cons c rest ih =>
      intro cur hcur t ht
      by_cases hc : c = '/'
      · rw [splitSegsAux, if_pos hc] at ht
        rcases List.mem_cons.mp ht with h | h
        · subst h; simpa using hcur
        · exact ih [] (by simp) t h
      · rw [splitSegsAux, if_neg hc] at ht
        refine ih (c :: cur) ?_ t ht
        intro hmem
        rcases List.mem_cons.mp hmem with h | h
        · exact hc h.symm
        · exact hcur h

theorem rustFileName_some (cs t : List Char) (h : rustFileName cs = some t) :
    t ≠ [] ∧ '/' ∉ t := by
  unfold rustFileName at h
  cases hl : ((splitSegs cs).filter fun s => decide (s ≠ [] ∧ s ≠ ['.'])).getLast? with
  | none => rw [hl] at h; cases h
  | some u =>
      rw [hl, Option.some_bind] at h
      by_cases hu : u = ['.', '.']
      · rw [if_pos hu] at h; cases h
      · rw [if_neg hu] at h
        cases h
        have hmem : t ∈ (splitSegs cs).filter fun s => decide (s ≠ [] ∧ s ≠ ['.']) :=
          mem_of_getLastEq hl
        have hfil := List.mem_filter.mp hmem
        have hne : t ≠ [] ∧ t ≠ ['.'] := of_decide_eq_true hfil.2
        exact ⟨hne.1, splitSegsAux_no_slash cs [] (by simp) t hfil.1⟩

/-- Claim C9 (confirmed): for any uploaded filename, the on-disk write path is
`/output/<b>` where `b` is the Rust `Path::file_name` basename of the name
when it exists and the substitute `"default"` otherwise; moreover the
basename, when present, is never the empty string, so the substitute is used
exactly in the no-basename (empty) case. -/
theorem uploaded_artifact_path_sanitized (name : List Char) :
    receiveArtifactPath name = REPO_DIR ++ (rustFileName name).getD "default".data ∧
    ∀ t, rustFileName name = some t → t ≠ [] := by
  constructor
  · unfold receiveArtifactPath pathJoin sanitize_filename
    cases h : rustFileName name with
    | none =>
        rw [Option.getD_none, if_neg (by decide), if_pos (by decide)]
    | some t =>
        have ht := rustFileName_some name t h
        have hh : ¬t.head? = some '/' := by
          intro hc
          exact ht.2 (mem_of_headEq hc)
        rw [Option.getD_some, if_neg hh, if_pos (by decide)]
  · intro t h
    exact (rustFileName_some name t h).1

/-- Claim C9 witness: the basename-nonemptiness clause evaluated on the
concrete upload name `"dir/a.pkg"`. -/
theorem uploaded_artifact_path_sanitized_witness :
    receiveArtifactPath "dir/a.pkg".data =
      REPO_DIR ++ (rustFileName "dir/a.pkg".data).getD "default".data ∧
    rustFileName "dir/a.pkg".data = some "a.pkg".data → "a.pkg".data ≠ [] := by
  intro _
  exact (uploaded_artifact_path_sanitized "dir/a.pkg".data).2 "a.pkg".data (by decide)

/-! ## Claim C10: re-tracking replaces the entry wholesale -/

/-- Claim C10 (confirmed): tracking a name already present in the state map
(via `track_package_inner`, hence via `track_package` and, unconditionally,
via the scheduler's `AddPackageUrl` handler) replaces the whole entry: the
new entry has `build = None` and the given url, dependencies and
`is_dependency` flag, whatever the old entry held, while every other name is
untouched. -/
theorem tracking_replaces_existing_entry (m : PackageMap) (p : Package)
    (url : Option String) (deps : List Package) (is_dep : Bool)
    (old : PackageInfo) (_hold : lookupPkg m p = some old) :
    lookupPkg (track_package_inner m p url deps is_dep) p =
      some ⟨url, is_dep, deps, none⟩ ∧
    (∀ q, ¬q = p →
      lookupPkg (track_package_inner m p url deps is_dep) q = lookupPkg m q) ∧
    (∀ u data, (sched_add_package_url m u data).1 =
      track_package_inner m data.name (some u) data.depends false) := by
  refine ⟨?_, ?_, fun _ _ => rfl⟩
  · simp [track_package_inner, lookupPkg]
  · intro q hq
    have hpq : ¬p = q := fun h => hq h.symm
    simp only [track_package_inner, lookupPkg, if_neg hpq]
    exact lookupPkg_filter_ne m p q hq

/-- Claim C10 witness: re-tracking `"pkg"`, whose old entry has a build
record, dependency `"d"` and `is_dependency = true`, resets the entry. -/
theorem tracking_replaces_existing_entry_witness :
    lookupPkg (track_package_inner [("pkg", ⟨none, true, ["d"], some ⟨5, ["f"]⟩⟩)]
        "pkg" (some "u") [] false) "pkg" = some ⟨some "u", false, [], none⟩ ∧
    (∀ q, ¬q = "pkg" →
      lookupPkg (track_package_inner [("pkg", ⟨none, true, ["d"], some ⟨5, ["f"]⟩⟩)]
          "pkg" (some "u") [] false) q =
        lookupPkg [("pkg", ⟨none, true, ["d"], some ⟨5, ["f"]⟩⟩)] q) ∧
    (∀ u data,
      (sched_add_package_url [("pkg", ⟨none, true, ["d"], some ⟨5, ["f"]⟩⟩)] u data).1 =
        track_package_inner [("pkg", ⟨none, true, ["d"], some ⟨5, ["f"]⟩⟩)]
          data.name (some u) data.depends false) :=
  tracking_replaces_existing_entry [("pkg", ⟨none, true, ["d"], some ⟨5, ["f"]⟩⟩)]
    "pkg" (some "u") [] false ⟨none, true, ["d"], some ⟨5, ["f"]⟩⟩ (by decide)

/-! ## Claim C1: dependency-respecting, capacity-gated dispatch -/

theorem firstEligible_spec (st : PackageMap) (q : List PackageToBuild)
    (b : PackageToBuild) (rest : List PackageToBuild)
    (h : firstEligible st q = some (b, rest)) :
    are_dependencies_met st b.package = true ∧
    ∃ pre post, q = pre ++ b :: post ∧ rest = pre ++ post ∧
      ∀ x ∈ pre, are_dependencies_met st x.package = false := by
  induction q generalizing b rest with
  | nil => cases h
  | cons hd tl ih =>
      rw [firstEligible] at h
      by_cases hel : are_dependencies_met st hd.package
      · rw [if_pos hel] at h
        injection h with h2
        injection h2 with hb hrest
        subst hb; subst hrest
        exact ⟨hel, [], tl, rfl, rfl, by intro x hx; cases hx⟩
      · rw [if_neg hel] at h
        cases hfe : firstEligible st tl with
        | none => rw [hfe] at h; cases h
        | some pr =>
            rw [hfe] at h
            injection h with h2
            injection h2 with hb hrest
            obtain ⟨hmet, pre, post, htl, hrest', hpre⟩ := ih pr.1 pr.2 (by rw [hfe])
            refine ⟨hb ▸ hmet, hd :: pre, post, by rw [htl, hb]; simp, ?_, ?_⟩
            · rw [← hrest, hrest']
              simp
            · intro x hx
              rcases List.mem_cons.mp hx with hx | hx
              · subst hx
                exact Bool.not_eq_true _ ▸ (by simpa using hel)
              · exact hpre x hx

theorem are_dependencies_met_spec (st : PackageMap) (p : Package)
    (h : are_dependencies_met st p = true) :
    ∃ info, lookupPkg st p = some info ∧
      ∀ d ∈ info.dependencies, ∃ di, lookupPkg st d = some di ∧ di.build.isSome = true := by
  unfold are_dependencies_met at h
  cases hl : lookupPkg st p with
  | none => rw [hl] at h; cases h
  | some info =>
      rw [hl] at h
      refine ⟨info, rfl, ?_⟩
      intro d hd
      have := List.all_eq_true.mp h d hd
      cases hld : lookupPkg st d with
      | none => rw [hld] at this; cases this
      | some di =>
          rw [hld] at this
          exact ⟨di, rfl, this⟩

/-- Claim C1 (confirmed): whenever the orchestrator dispatches a build
(creates and starts a container), the active-container count was strictly
below `max_builders`, the dispatched package is the first entry of the
pending-build queue whose dependencies are all met (every earlier entry has
unmet dependencies), and at that moment every dependency of the package has a
non-null `build` record in the state map. -/
theorem orchestrator_dispatch_first_ready (maxBuilders : Nat) (st : PackageMap)
    (newId : String) (s s' : OrchState) (b : PackageToBuild)
    (h : orchDispatch maxBuilders st newId s = (s', some b)) :
    s.activeContainers.length < maxBuilders ∧
    are_dependencies_met st b.package = true ∧
    (∃ info, lookupPkg st b.package = some info ∧
      ∀ d ∈ info.dependencies, ∃ di, lookupPkg st d = some di ∧ di.build.isSome = true) ∧
    ∃ pre post, s.packagesToBuild = pre ++ b :: post ∧
      s'.packagesToBuild = pre ++ post ∧
      ∀ x ∈ pre, are_dependencies_met st x.package = false := by
  unfold orchDispatch at h
  by_cases hlen : s.activeContainers.length < maxBuilders
  · rw [if_pos hlen] at h
    cases hfe : firstEligible st s.packagesToBuild with
    | none =>
        rw [hfe] at h
        have h2 := congrArg Prod.snd h
        simp at h2
    | some pr =>
        obtain ⟨bb, rest⟩ := pr
        rw [hfe] at h
        have h1 := congrArg Prod.fst h
        have h2 := congrArg Prod.snd h
        dsimp only at h1 h2
        injection h2 with h2
        have hs' : s'.packagesToBuild = rest := by rw [← h1]
        obtain ⟨hmet, pre, post, hq, hrest, hpre⟩ :=
          firstEligible_spec st s.packagesToBuild bb rest (by rw [hfe])
        exact ⟨hlen, h2 ▸ hmet, h2 ▸ are_dependencies_met_spec st bb.package hmet,
          pre, post, h2 ▸ hq, hrest ▸ hs', hpre⟩
  · rw [if_neg hlen] at h
    have h2 := congrArg Prod.snd h
    simp at h2

/-- Claim C1 witness: with `max_builders = 1`, no active containers and a
two-entry queue whose first entry has an unbuilt dependency, the orchestrator
dispatches the second entry and the theorem's conclusions evaluate at it. -/
theorem orchestrator_dispatch_first_ready_witness :
    (⟨[⟨"a", "ua"⟩, ⟨"b", "ub"⟩], [], []⟩ : OrchState).activeContainers.length < 1 ∧
    are_dependencies_met [("a", ⟨none, false, ["c"], none⟩), ("b", ⟨none, false, [], none⟩)]
      (⟨"b", "ub"⟩ : PackageToBuild).package = true ∧
    (∃ info, lookupPkg [("a", ⟨none, false, ["c"], none⟩), ("b", ⟨none, false, [], none⟩)]
        (⟨"b", "ub"⟩ : PackageToBuild).package = some info ∧
      ∀ d ∈ info.dependencies,
        ∃ di, lookupPkg [("a", ⟨none, false, ["c"], none⟩), ("b", ⟨none, false, [], none⟩)] d =
          some di ∧ di.build.isSome = true) ∧
    ∃ pre post,
      (⟨[⟨"a", "ua"⟩, ⟨"b", "ub"⟩], [], []⟩ : OrchState).packagesToBuild = pre ++ ⟨"b", "ub"⟩ :: post ∧
      (⟨[⟨"a", "ua"⟩], [("b", "cccccccccccccccc")], ["cccccccccccc"]⟩ : OrchState).packagesToBuild =
        pre ++ post ∧
      ∀ x ∈ pre,
        are_dependencies_met [("a", ⟨none, false, ["c"], none⟩), ("b", ⟨none, false, [], none⟩)]
          x.package = false :=
  orchestrator_dispatch_first_ready 1
    [("a", ⟨none, false, ["c"], none⟩), ("b", ⟨none, false, [], none⟩)]
    "cccccccccccccccc" ⟨[⟨"a", "ua"⟩, ⟨"b", "ub"⟩], [], []⟩
    ⟨[⟨"a", "ua"⟩], [("b", "cccccccccccccccc")], ["cccccccccccc"]⟩ ⟨"b", "ub"⟩ (by decide)

/-! ## Claim C2: build record persisted before `BuildSuccess` -/

theorem lookupPkg_build_package (m : PackageMap) (p : Package) (t : Int)
    (files : List String) (q : Package) :
    lookupPkg (build_package m p t files) q =
      if q = p then
        (lookupPkg m q).map fun info => { info with build := some ⟨t, files⟩ }
      else lookupPkg m q := by
  induction m with
  | nil => cases hq : decide (q = p) <;> simp [build_package, lookupPkg]
  | cons e rest ih =>
      rw [build_package, List.map_cons]
      by_cases hep : e.1 = p
      · rw [if_pos hep]
        by_cases heq : e.1 = q
        · have hqp : q = p := heq ▸ hep
          rw [lookupPkg, if_pos heq, if_pos hqp, lookupPkg, if_pos heq]
          rfl
        · have hqp : ¬q = p := fun hh => heq (hh ▸ hep ▸ rfl)
          rw [lookupPkg, if_neg heq, lookupPkg, if_neg heq]
          have := ih
          rw [build_package] at this
          rw [this, if_neg hqp]
      · rw [if_neg hep]
        by_cases heq : e.1 = q
        · have hqp : ¬q = p := fun hh => hep (heq ▸ hh ▸ rfl)
          rw [lookupPkg, if_pos heq, if_neg hqp, lookupPkg, if_pos heq]
        · rw [lookupPkg, if_neg heq, lookupPkg, if_neg heq]
          have := ih
          rw [build_package] at this
          rw [this]

/-- Claim C2 counterexample: an `ArtifactsUploaded` message for a package
absent from the state map (removed while its build was running), with a
successful `repo-add`: `BuildSuccess("foo")` is emitted although the
persisted map — the empty map — holds no build record for `"foo"`. -/
theorem artifacts_uploaded_untracked_emits_anyway :
    handleArtifactsUploaded [] true "foo" ["foo.pkg"] 7 =
      ([], [RepoAction.persistState [], RepoAction.emit (Message.BuildSuccess "foo")]) ∧
    lookupPkg [] "foo" = none := by
  constructor
  · rfl
  · rfl

/-- Claim C2 (corrected): for an `ArtifactsUploaded{p, files, t}` message
about a *tracked* package p, a successful `repo-add` leads to the build
record `{time = t, files = files}` being written and the state persisted
strictly before `BuildSuccess(p)` is emitted; on `repo-add` failure nothing
is persisted and no message is emitted.  (For an untracked p the record
write is a silent no-op yet `BuildSuccess(p)` is still emitted.) -/
theorem artifacts_persist_before_build_success (m : PackageMap) (p : Package)
    (info : PackageInfo) (files : List String) (t : Int)
    (htr : lookupPkg m p = some info) :
    ((handleArtifactsUploaded m true p files t).2 =
       [RepoAction.persistState (handleArtifactsUploaded m true p files t).1,
        RepoAction.emit (Message.BuildSuccess p)] ∧
     lookupPkg (handleArtifactsUploaded m true p files t).1 p =
       some { info with build := some ⟨t, files⟩ }) ∧
    handleArtifactsUploaded m false p files t = (m, []) := by
  refine ⟨⟨rfl, ?_⟩, rfl⟩
  have h1 : (handleArtifactsUploaded m true p files t).1 = build_package m p t files := rfl
  rw [h1, lookupPkg_build_package, if_pos rfl, htr]
  rfl

/-- Claim C2 witness: the corrected statement evaluated for the tracked
package `"foo"` with upload time 7 and one artifact file. -/
theorem artifacts_persist_before_build_success_witness :
    ((handleArtifactsUploaded [("foo", ⟨none, false, [], none⟩)] true "foo" ["foo.pkg"] 7).2 =
       [RepoAction.persistState
          (handleArtifactsUploaded [("foo", ⟨none, false, [], none⟩)] true "foo" ["foo.pkg"] 7).1,
        RepoAction.emit (Message.BuildSuccess "foo")] ∧
     lookupPkg (handleArtifactsUploaded [("foo", ⟨none, false, [], none⟩)]
         true "foo" ["foo.pkg"] 7).1 "foo" =
       some { url := none, is_dependency := false, dependencies := [],
              build := some ⟨7, ["foo.pkg"]⟩ }) ∧
    handleArtifactsUploaded [("foo", ⟨none, false, [], none⟩)] false "foo" ["foo.pkg"] 7 =
      ([("foo", ⟨none, false, [], none⟩)], []) :=
  artifacts_persist_before_build_success [("foo", ⟨none, false, [], none⟩)] "foo"
    ⟨none, false, [], none⟩ ["foo.pkg"] 7 (by decide)

/-! ## Claim C5: `RemovePackages` handling in the repository manager -/

/-- Claim C5 counterexample: package `"p"` has the stored artifact
`"p.pkg"`, yet when the repo database file does not exist the handler deletes
no file at all (the claim asserts the artifact files are deleted even in
that case). -/
theorem remove_packages_no_deletion_without_db :
    handleRemovePackages [("p", ⟨none, false, [], some ⟨1, ["p.pkg"]⟩⟩)] false ["p"] =
      ⟨false, [], []⟩ ∧
    get_files [("p", ⟨none, false, [], some ⟨1, ["p.pkg"]⟩⟩)] "p" = ["p.pkg"] := by
  constructor
  · rfl
  · rfl

/-- Claim C5 (corrected): processing `RemovePackages(S)` reads and
accumulates the stored files of each package of S (packages with no stored
files are skipped); when the database file `<repo>.db.tar.zst` exists,
`repo-remove` is invoked with the names of the packages that had files and
every accumulated artifact file is then deleted from disk; when the database
file does not exist, the handler returns early — `repo-remove` is not
invoked and *no* artifact file is deleted. -/
theorem remove_packages_deletes_only_with_db (m : PackageMap) (dbExists : Bool)
    (ps : List Package) :
    handleRemovePackages m dbExists ps =
      if dbExists then
        ⟨true, ps.filter fun p => ¬(get_files m p = []),
         (ps.map (get_files m)).flatten⟩
      else ⟨false, [], []⟩ := by
  have hfold : ∀ (l : List Package) (acc : List String × List Package),
      List.foldl (fun (acc : List String × List Package) p =>
        let package_files := get_files m p
        if ¬(package_files = []) then (acc.1 ++ package_files, acc.2 ++ [p]) else acc) acc l =
      (acc.1 ++ (l.map (get_files m)).flatten,
       acc.2 ++ l.filter fun p => ¬(get_files m p = [])) := by
    intro l
    induction l with
    | nil => intro acc; simp
    | cons p rest ih =>
        intro acc
        rw [List.foldl_cons]
        dsimp only
        by_cases hf : get_files m p = []
        · rw [if_neg (not_not_intro hf), ih]
          simp [List.filter_cons, hf]
        · rw [if_pos hf, ih]
          simp [List.filter_cons, hf, List.append_assoc]
  unfold handleRemovePackages
  rw [hfold]
  simp only [List.nil_append]
  rfl

/-! ## Claim C6: `POST /packages/add` response sets -/

/-- Claim C6 counterexample: requesting `"foo"` with an empty registry
response and nothing tracked: `"foo"` is reported in `not_found` *and* in
`added`, and an `AddPackages(["foo"])` message is emitted for it. -/
theorem add_package_not_found_still_added :
    add_package_handler [] [] ["foo"] =
      (⟨["foo"], ["foo"], []⟩, some (Message.AddPackages ["foo"])) := by
  rfl

/-- Claim C6 (corrected): `POST /packages/add` probes the registry first, but
the `added` set and the emitted `AddPackages` message are computed as
`requested \ tracked`, independently of the probe: a name absent from the
registry that is untracked appears in both `not_found` and `added` and is
included in the emitted message.  `not_found = requested \ registry`,
`already_tracked = tracked ∩ requested`, and an already-tracked name is never
re-added (it is excluded from `added` and from the message, which is emitted
iff `added` is non-empty). -/
theorem add_package_response_sets (registry tracked requested : List Package) :
    (add_package_handler registry tracked requested).1.added =
      (requested.filter fun x => ¬tracked.contains x) ∧
    (add_package_handler registry tracked requested).1.not_found =
      (requested.filter fun x => ¬registry.contains x) ∧
    (add_package_handler registry tracked requested).1.already_tracked =
      (tracked.filter fun x => requested.contains x) ∧
    ((add_package_handler registry tracked requested).1.already_tracked.all fun x =>
      ¬(add_package_handler registry tracked requested).1.added.contains x) = true ∧
    (add_package_handler registry tracked requested).2 =
      (if ¬((add_package_handler registry tracked requested).1.added = []) then
         some (Message.AddPackages (add_package_handler registry tracked requested).1.added)
       else none) := by
  refine ⟨rfl, rfl, rfl, ?_, rfl⟩
  rw [List.all_eq_true]
  intro x hx
  have hxt : x ∈ tracked := (List.mem_filter.mp hx).1
  apply decide_eq_true
  intro hc
  have hxa : x ∈ requested.filter fun x => ¬tracked.contains x :=
    List.elem_iff.mp hc
  have := of_decide_eq_true (List.mem_filter.mp hxa).2
  exact this (List.elem_iff.mpr hxt)

/-! ## Claim C8: `GET /key` authentication -/

/-- Claim C8 counterexample: a request with no `hostname` header, while a
container is active and the key file is readable, receives
`400 BAD_REQUEST`, not the `401` the claim asserts for every non-matching
request. -/
theorem get_key_missing_hostname_is_bad_request :
    get_key none ["aaaaaaaaaaaa"] (some [7]) = KeyResponse.badRequest ∧
    ¬KeyResponse.badRequest = KeyResponse.unauthorized := by
  constructor
  · rfl
  · intro h
    cases h

/-- Claim C8 (corrected): `GET /key` returns the raw key bytes `k` iff a
`hostname` header is present, matches a short container ID recorded in the
ephemeral active-container set, and the key file read yields `k`; a present
non-matching hostname yields `401 UNAUTHORIZED`; a matching hostname with an
unreadable key file yields `500 INTERNAL_SERVER_ERROR`; a missing hostname
yields `400 BAD_REQUEST`. -/
theorem get_key_iff_active (h : String) (active : List String) (k : List Nat)
    (kf : Option (List Nat)) :
    (get_key (some h) active kf = KeyResponse.ok k ↔
      active.contains h = true ∧ kf = some k) ∧
    (active.contains h = false → get_key (some h) active kf = KeyResponse.unauthorized) ∧
    (active.contains h = true → get_key (some h) active none = KeyResponse.internalError) ∧
    get_key none active kf = KeyResponse.badRequest := by
  refine ⟨⟨?_, ?_⟩, ?_, ?_, rfl⟩
  · intro hk
    simp only [get_key] at hk
    by_cases hc : active.contains h = true
    · rw [if_neg (not_not_intro hc)] at hk
      cases kf with
      | none => cases hk
      | some k2 =>
          refine ⟨hc, ?_⟩
          injection hk with hk
          rw [hk]
    · rw [if_pos (by simpa using hc)] at hk
      cases hk
  · rintro ⟨hc, hkf⟩
    subst hkf
    simp only [get_key]
    rw [if_neg (not_not_intro hc)]
  · intro hc
    simp only [get_key]
    rw [if_pos (show ¬(active.contains h = true) from fun hmem => by
      rw [hmem] at hc; cases hc)]
  · intro hc
    simp only [get_key]
    rw [if_neg (not_not_intro hc)]

/-- Claim C8 witness: the corrected statement evaluated at the active short
ID `"aaaaaaaaaaaa"` with key bytes `[7]`, together with its 401 clause at a
non-matching hostname and its 500 clause at an unreadable key file. -/
theorem get_key_iff_active_witness :
    ((get_key (some "aaaaaaaaaaaa") ["aaaaaaaaaaaa"] (some [7]) = KeyResponse.ok [7] ↔
        (["aaaaaaaaaaaa"].contains "aaaaaaaaaaaa") = true ∧
          (some [7] : Option (List Nat)) = some [7]) ∧
     ((["aaaaaaaaaaaa"].contains "aaaaaaaaaaaa") = false →
        get_key (some "aaaaaaaaaaaa") ["aaaaaaaaaaaa"] (some [7]) = KeyResponse.unauthorized) ∧
     ((["aaaaaaaaaaaa"].contains "aaaaaaaaaaaa") = true →
        get_key (some "aaaaaaaaaaaa") ["aaaaaaaaaaaa"] none = KeyResponse.internalError) ∧
     get_key none ["aaaaaaaaaaaa"] (some [7]) = KeyResponse.badRequest) ∧
    get_key (some "bbbbbbbbbbbb") ["aaaaaaaaaaaa"] (some [7]) = KeyResponse.unauthorized ∧
    get_key (some "aaaaaaaaaaaa") ["aaaaaaaaaaaa"] none = KeyResponse.internalError :=
  ⟨get_key_iff_active "aaaaaaaaaaaa" ["aaaaaaaaaaaa"] [7] (some [7]),
   (get_key_iff_active "bbbbbbbbbbbb" ["aaaaaaaaaaaa"] [7] (some [7])).2.1 (by decide),
   (get_key_iff_active "aaaaaaaaaaaa" ["aaaaaaaaaaaa"] [7] none).2.2.1 (by decide)⟩

/-! ## Claim C3: staleness condition on scheduler emissions -/

theorem get_build_times_mem (m : PackageMap) (packages : List Package)
    (e : Package × Int) (he : e ∈ get_build_times m packages) :
    ∃ info b, (e.1, info) ∈ m ∧ info.build = some b ∧ e.2 = b.time := by
  rcases List.mem_filterMap.mp he with ⟨entry, hentry, heq⟩
  by_cases hc : packages.contains entry.1
  · rw [if_pos hc] at heq
    cases hb : entry.2.build with
    | none => rw [hb] at heq; cases heq
    | some b =>
        rw [hb, Option.map_some'] at heq
        injection heq with heq
        refine ⟨entry.2, b, ?_, hb, ?_⟩
        · rw [← heq]
          simpa using hentry
        · rw [← heq]
  · rw [if_neg hc] at heq
    cases heq

theorem get_build_times_complete (m : PackageMap) (packages : List Package)
    (p : Package) (info : PackageInfo) (b : Build)
    (hmem : (p, info) ∈ m) (hc : packages.contains p) (hb : info.build = some b) :
    (p, b.time) ∈ get_build_times m packages := by
  refine List.mem_filterMap.mpr ⟨(p, info), hmem, ?_⟩
  rw [if_pos hc, hb, Option.map_some']

theorem tracked_aur_mem (m : PackageMap) (p : Package)
    (hp : p ∈ tracked_packages_aur m) :
    ∃ info, (p, info) ∈ m ∧ info.url = none := by
  rcases List.mem_map.mp hp with ⟨entry, hentry, heq⟩
  have hf := List.mem_filter.mp hentry
  refine ⟨entry.2, ?_, Option.isNone_iff_eq_none.mp hf.2⟩
  rw [← heq]
  simpa using hf.1

/-- Claim C3 counterexample: the scheduler's retry pass (one of its
`BuildPackage` emission sites) re-emits `BuildPackage("foo")` from the
retries entry `("foo", 1)` although `"foo"` has the build record time 100
and the upstream `last_modified` 50 ≤ 100 — i.e. an emission with `build`
non-null and `upstream_last_modified ≤ build.time`. -/
theorem scheduler_retry_emits_up_to_date :
    "foo" ∈ scheduler_tick_emissions [("foo", ⟨none, false, [], some ⟨100, []⟩⟩)]
        [("foo", 50)] [("foo", 1)] 3 false true ∧
    buildTimeOf [("foo", ⟨none, false, [], some ⟨100, []⟩⟩)] "foo" = some 100 ∧
    lookupTime [("foo", 50)] "foo" = some 50 ∧
    ¬(100 : Int) < 50 := by
  refine ⟨?_, rfl, rfl, by decide⟩
  decide

/-- Claim C3 (corrected): every `BuildPackage(p)` emission of the scheduler's
AUR update-check pass satisfies the staleness condition — either p has no
recorded build or the AUR `last_modified` is strictly greater than
`build.time`.  (The failure-retry pass, by contrast, re-emits any retries
entry with `attempt < max_retries` without consulting the build record, so a
retry emission can concern an up-to-date package.) -/
theorem update_check_emits_only_stale (m : PackageMap)
    (last_modified : List (Package × Int)) (p : Package)
    (hnd : (m.map Prod.fst).Nodup)
    (hp : p ∈ check_aur_packages m last_modified) :
    buildTimeOf m p = none ∨
    ∃ bt lm, buildTimeOf m p = some bt ∧
      lookupTime last_modified p = some lm ∧ bt < lm := by
  unfold check_aur_packages at hp
  rcases List.mem_append.mp hp with hreb | hnb
  · rcases List.mem_filterMap.mp hreb with ⟨e, he, hsome⟩
    cases hlt : lookupTime last_modified e.1 with
    | none => rw [hlt] at hsome; cases hsome
    | some lm =>
        rw [hlt] at hsome
        dsimp only at hsome
        by_cases hgt : lm > e.2
        · rw [if_pos hgt] at hsome
          injection hsome with hep
          rcases get_build_times_mem m _ e he with ⟨info, b, hmem, hb, ht⟩
          right
          refine ⟨b.time, lm, ?_, ?_, ?_⟩
          · rw [← hep]
            unfold buildTimeOf
            rw [lookupPkg_of_mem_nodup m e.1 info hnd hmem, Option.some_bind, hb,
              Option.map_some']
          · rw [← hep, hlt]
          · rw [← ht]
            exact hgt
        · rw [if_neg hgt] at hsome
          cases hsome
  · have hf := List.mem_filter.mp hnb
    rcases tracked_aur_mem m p hf.1 with ⟨info, hmem, _⟩
    left
    cases hb : info.build with
    | none =>
        unfold buildTimeOf
        rw [lookupPkg_of_mem_nodup m p info hnd hmem, Option.some_bind, hb]
        rfl
    | some b =>
        exfalso
        have hbt : (p, b.time) ∈ get_build_times m (tracked_packages_aur m) :=
          get_build_times_complete m _ p info b hmem (List.elem_iff.mpr hf.1) hb
        have hcontains := of_decide_eq_true hf.2
        exact hcontains (List.elem_iff.mpr
          (List.mem_map.mpr ⟨(p, b.time), hbt, rfl⟩))

/-- Claim C3 witness: the corrected statement evaluated on a tracked,
never-built AUR package `"a"` with an empty AUR response, which the pass
emits. -/
theorem update_check_emits_only_stale_witness :
    buildTimeOf [("a", ⟨none, false, [], none⟩)] "a" = none ∨
    ∃ bt lm, buildTimeOf [("a", ⟨none, false, [], none⟩)] "a" = some bt ∧
      lookupTime [] "a" = some lm ∧ bt < lm :=
  update_check_emits_only_stale [("a", ⟨none, false, [], none⟩)] [] "a"
    (by decide) (by decide)

/-! ## Claim C7: the concurrency cap -/

theorem foldl_remove_active_le (ps : List Package) :
    ∀ s : OrchState,
      ((ps.foldl (fun s p =>
        { s with
          packagesToBuild := removeFirstBuild s.packagesToBuild p,
          activeContainers := s.activeContainers.filter fun e => ¬(e.1 = p) }) s) :
        OrchState).activeContainers.length ≤ s.activeContainers.length := by
  induction ps with
  | nil => intro s; exact Nat.le_refl _
  | cons p rest ih =>
      intro s
      rw [List.foldl_cons]
      exact Nat.le_trans (ih _) (List.length_filter_le _ _)

theorem orchHandleMessage_active_le (st : PackageMap) (msg : Option Message)
    (s : OrchState) :
    (orchHandleMessage st msg s).activeContainers.length ≤ s.activeContainers.length := by
  cases msg with
  | none => exact Nat.le_refl _
  | some m =>
      cases m with
      | BuildPackage p => exact Nat.le_refl _
      | RemovePackages ps => exact foldl_remove_active_le ps s
      | AddPackages ps => exact Nat.le_refl _
      | AddPackageUrl u d => exact Nat.le_refl _
      | AddDependencies ps => exact Nat.le_refl _
      | BuildSuccess p => exact Nat.le_refl _
      | BuildFailure p => exact Nat.le_refl _
      | ArtifactsUploaded p f t => exact Nat.le_refl _

theorem orchDispatch_active_le (maxBuilders : Nat) (st : PackageMap) (newId : String)
    (s : OrchState) (h : s.activeContainers.length ≤ maxBuilders) :
    (orchDispatch maxBuilders st newId s).1.activeContainers.length ≤ maxBuilders := by
  unfold orchDispatch
  by_cases hlen : s.activeContainers.length < maxBuilders
  · rw [if_pos hlen]
    cases hfe : firstEligible st s.packagesToBuild with
    | none => exact h
    | some pr =>
        obtain ⟨b, rest⟩ := pr
        dsimp only [insertContainer]
        have : (s.activeContainers.filter fun e => ¬(e.1 = b.package)).length ≤
            s.activeContainers.length := List.length_filter_le _ _
        simp only [List.length_cons]
        omega
  · rw [if_neg hlen]
    exact h

theorem orchCleanup_active_le (exited : List (Package × Int)) :
    ∀ s : OrchState,
      (orchCleanup exited s).1.activeContainers.length ≤ s.activeContainers.length := by
  induction exited with
  | nil => intro s; exact Nat.le_refl _
  | cons pe rest ih =>
      intro s
      rw [orchCleanup]
      cases lookupContainer s.activeContainers pe.1 with
      | none => exact ih s
      | some id =>
          dsimp only
          exact Nat.le_trans (ih _) (List.length_filter_le _ _)

theorem orchTick_active_le (maxBuilders : Nat) (st : PackageMap) (inp : TickInput)
    (s : OrchState) (h : s.activeContainers.length ≤ maxBuilders) :
    (orchTick maxBuilders st inp s).1.activeContainers.length ≤ maxBuilders := by
  unfold orchTick
  dsimp only
  exact Nat.le_trans (orchCleanup_active_le inp.exited _)
    (orchDispatch_active_le maxBuilders st inp.newId _
      (Nat.le_trans (orchHandleMessage_active_le st inp.msg s) h))

theorem orchRun_active_le (maxBuilders : Nat) (st : PackageMap) :
    ∀ (inputs : List TickInput) (s : OrchState),
      s.activeContainers.length ≤ maxBuilders →
      (orchRun maxBuilders st inputs s).activeContainers.length ≤ maxBuilders := by
  intro inputs
  induction inputs with
  | nil => intro s h; exact h
  | cons inp rest ih =>
      intro s h
      rw [orchRun]
      exact ih _ (orchTick_active_le maxBuilders st inp s h)

/-- Claim C7 counterexample: with `max_builders = 1`, dispatch `"p"`, then
process `RemovePackages(["p"])` (which stops the container but does not
remove its short ID from the ephemeral set), then dispatch `"q"`: the
ephemeral `active_containers` set of `state.rs` now records two distinct
short container IDs, exceeding `max_builders`. -/
theorem ephemeral_short_ids_exceed_max_builders :
    (orchRun 1 [("p", ⟨none, false, [], none⟩), ("q", ⟨none, false, [], none⟩)]
      [⟨some (Message.BuildPackage "p"), "aaaaaaaaaaaa1111", []⟩,
       ⟨some (Message.RemovePackages ["p"]), "", []⟩,
       ⟨some (Message.BuildPackage "q"), "bbbbbbbbbbbb2222", []⟩]
      orchInit).runningShortIds.dedup.length = 2 ∧ 1 < 2 := by
  constructor
  · decide
  · decide

/-- Claim C7 (corrected): the orchestrator's `active_containers` map — whose
size gates dispatch — never exceeds `max_builders` along any run from the
initial empty state: a container is created only when the map's size is
strictly below `max_builders`, at most one container is started per tick,
and every other transition only shrinks the map.  (The ephemeral short-ID
set of `state.rs` is *not* so bounded, because the `RemovePackages` teardown
path never removes the short ID.) -/
theorem active_containers_bounded (maxBuilders : Nat) (st : PackageMap)
    (inputs : List TickInput) :
    (orchRun maxBuilders st inputs orchInit).activeContainers.length ≤ maxBuilders :=
  orchRun_active_le maxBuilders st inputs orchInit (Nat.zero_le _)

/-! ## Claim C4: the failure-retry bound -/

/-- A pacing condition on a single-cycle trace, for package p: every retry
pass is immediately preceded by a `BuildFailure(p)` (so the attempt counter
has advanced since the last pass), no `BuildSuccess(p)` occurs, and no
successful update pass occurs (the trace stays within one update cycle).
The boolean flag records whether the previous event was `BuildFailure(p)`. -/
def pacedForAux (p : Package) : Bool → List SchedEvent → Bool
  | _, [] => true
  | _, SchedEvent.buildFailure q :: rest => pacedForAux p (decide (q = p)) rest
  | _, SchedEvent.buildSuccess q :: rest => decide (¬q = p) && pacedForAux p false rest
  | jf, SchedEvent.retryPass :: rest => jf && pacedForAux p false rest
  | _, SchedEvent.updateSuccess :: _ => false

/-- The pacing condition, starting with no pending failure. -/
def pacedFor (p : Package) (tr : List SchedEvent) : Bool := pacedForAux p false tr

/-- The number of `BuildFailure(p)` events in a trace.  While it stays at or
below 255, the `u8` attempt counter never wraps. -/
def countFailures (p : Package) : List SchedEvent → Nat
  | [] => 0
  | SchedEvent.buildFailure q :: rest => (if q = p then 1 else 0) + countFailures p rest
  | SchedEvent.buildSuccess _ :: rest => countFailures p rest
  | SchedEvent.retryPass :: rest => countFailures p rest
  | SchedEvent.updateSuccess :: rest => countFailures p rest

theorem getRetry_filter_ne (m : RetriesMap) (p q : Package) (h : ¬q = p) :
    getRetry (m.filter fun e => ¬(e.1 = p)) q = getRetry m q := by
  induction m with
  | nil => rfl
  | cons e rest ih =>
      rw [List.filter_cons]
      by_cases hp : e.1 = p
      · have hd : (decide ¬(e.1 = p)) = false := by simp [hp]
        rw [hd, if_neg Bool.false_ne_true]
        have hq : ¬e.1 = q := by rw [hp]; exact fun hqq => h hqq.symm
        conv_rhs => rw [getRetry]
        rw [if_neg hq]
        exact ih
      · have hd : (decide ¬(e.1 = p)) = true := by simp [hp]
        rw [hd, if_pos rfl]
        rw [getRetry, getRetry]
        by_cases hq : e.1 = q
        · rw [if_pos hq, if_pos hq]
        · rw [if_neg hq, if_neg hq]
          exact ih

theorem getRetry_setRetry_self (m : RetriesMap) (p : Package) (v : Nat) :
    getRetry (setRetry p v m) p = some v := by
  rw [setRetry, getRetry, if_pos rfl]

theorem getRetry_setRetry_ne (m : RetriesMap) (p q : Package) (v : Nat) (h : ¬q = p) :
    getRetry (setRetry p v m) q = getRetry m q := by
  rw [setRetry, getRetry, if_neg (fun hh => h hh.symm)]
  exact getRetry_filter_ne m p q h

theorem nodup_keys_filter (m : RetriesMap) (p : Package)
    (h : (m.map Prod.fst).Nodup) :
    (((m.filter fun e => ¬(e.1 = p)).map Prod.fst)).Nodup :=
  ((List.filter_sublist m).map Prod.fst).nodup h

theorem nodup_keys_setRetry (m : RetriesMap) (p : Package) (v : Nat)
    (h : (m.map Prod.fst).Nodup) :
    ((setRetry p v m).map Prod.fst).Nodup := by
  rw [setRetry, List.map_cons, List.nodup_cons]
  refine ⟨?_, nodup_keys_filter m p h⟩
  intro hmem
  rcases List.mem_map.mp hmem with ⟨e, hef, hep⟩
  exact (of_decide_eq_true (List.mem_filter.mp hef).2) hep

theorem getRetry_eq_none (m : RetriesMap) (p : Package)
    (h : ¬p ∈ m.map Prod.fst) : getRetry m p = none := by
  induction m with
  | nil => rfl
  | cons e rest ih =>
      rw [getRetry, if_neg (fun he => h (List.mem_map.mpr ⟨e, List.mem_cons_self e rest, he⟩))]
      exact ih fun hm => h (List.mem_map.mpr
        (by rcases List.mem_map.mp hm with ⟨x, hx, hxe⟩
            exact ⟨x, List.mem_cons_of_mem e hx, hxe⟩))

theorem mem_emits_mem_keys (maxRetries : Nat) (m : RetriesMap) (p : Package)
    (h : p ∈ retry_pass_emits maxRetries m) : p ∈ m.map Prod.fst := by
  rcases List.mem_map.mp h with ⟨e, he, hep⟩
  exact List.mem_map.mpr ⟨e, (List.mem_filter.mp he).1, hep⟩

theorem count_retry_pass (maxRetries : Nat) (m : RetriesMap) (p : Package)
    (hnd : (m.map Prod.fst).Nodup) :
    (retry_pass_emits maxRetries m).count p =
      (match getRetry m p with
       | some a => if a < maxRetries then 1 else 0
       | none => 0) := by
  induction m with
  | nil => rfl
  | cons e rest ih =>
      have hnd' : (rest.map Prod.fst).Nodup := (List.nodup_cons.mp (by simpa using hnd)).2
      have hnotin : ¬e.1 ∈ rest.map Prod.fst := (List.nodup_cons.mp (by simpa using hnd)).1
      rw [retry_pass_emits, List.filter_cons]
      by_cases hkey : e.1 = p
      · have hrest : getRetry rest p = none := getRetry_eq_none rest p (hkey ▸ hnotin)
        have hcount : ((rest.filter fun x => x.2 < maxRetries).map Prod.fst).count p = 0 := by
          rw [List.count_eq_zero]
          intro hm
          exact (hkey ▸ hnotin) (mem_emits_mem_keys maxRetries rest p hm)
        rw [getRetry, if_pos hkey]
        by_cases hlt : e.2 < maxRetries
        · rw [if_pos (by simpa using hlt), List.map_cons, List.count_cons]
          have : retry_pass_emits maxRetries rest =
              (rest.filter fun x => x.2 < maxRetries).map Prod.fst := rfl
          rw [← this] at hcount
          rw [show ((rest.filter fun x => decide (x.2 < maxRetries)).map Prod.fst).count p = 0 from hcount]
          simp [hkey, hlt]
        · rw [if_neg (by simpa using hlt)]
          have : retry_pass_emits maxRetries rest =
              (rest.filter fun x => x.2 < maxRetries).map Prod.fst := rfl
          rw [← this] at hcount ⊢
          rw [hcount]
          simp [hlt]
      · rw [getRetry, if_neg hkey]
        by_cases hlt : e.2 < maxRetries
        · rw [if_pos (by simpa using hlt), List.map_cons, List.count_cons]
          have hih := ih hnd'
          rw [retry_pass_emits] at hih
          rw [hih]
          simp [hkey]
        · rw [if_neg (by simpa using hlt)]
          have hih := ih hnd'
          rw [retry_pass_emits] at hih
          exact hih

theorem paced_retry_bound_aux (p : Package) (maxRetries : Nat) :
    ∀ (tr : List SchedEvent) (m : RetriesMap) (jf : Bool),
      (m.map Prod.fst).Nodup →
      pacedForAux p jf tr = true →
      (jf = true → 1 ≤ (getRetry m p).getD 0) →
      (getRetry m p).getD 0 + countFailures p tr ≤ 255 →
      (schedRetryRun maxRetries m tr).2.count p +
        min ((getRetry m p).getD 0 - cond jf 1 0) maxRetries ≤ maxRetries := by
  intro tr
  induction tr with
  | nil =>
      intro m jf hnd hp hj hfut
      rw [schedRetryRun]
      simp only [List.count_nil, Nat.zero_add]
      exact Nat.min_le_right _ _
  | cons e rest ih =>
      intro m jf hnd hp hj hfut
      have hmono : ∀ x : Nat, min (x - cond jf 1 0) maxRetries ≤ min x maxRetries := by
        intro x
        cases jf
        · simp
        · exact min_le_min (Nat.sub_le _ _) (le_refl _)
      cases e with
      | buildFailure q =>
          rw [pacedForAux] at hp
          rw [countFailures] at hfut
          rw [schedRetryRun]
          dsimp only [schedRetryStep]
          rw [List.nil_append]
          by_cases hq : q = p
          · subst hq
            rw [decide_eq_true rfl] at hp
            rw [if_pos rfl] at hfut
            have hlt256 : (getRetry m q).getD 0 + 1 < 256 := by omega
            have hget : getRetry (incrRetry m q) q = some ((getRetry m q).getD 0 + 1) := by
              rw [show getRetry (incrRetry m q) q =
                    some (((getRetry m q).getD 0 + 1) % 256) from
                  getRetry_setRetry_self _ _ _,
                Nat.mod_eq_of_lt hlt256]
            have h1 := ih (incrRetry m q) true (nodup_keys_setRetry _ _ _ hnd) hp
              (by intro _; rw [hget]; exact Nat.le_add_left 1 _)
              (by rw [hget]; simp only [Option.getD_some]; omega)
            rw [hget] at h1
            simp only [Option.getD_some, Bool.cond_true, Nat.add_sub_cancel] at h1
            exact Nat.le_trans (Nat.add_le_add_left (hmono _) _) h1
          · rw [decide_eq_false hq] at hp
            rw [if_neg hq] at hfut
            have hget : getRetry (incrRetry m q) p = getRetry m p :=
              getRetry_setRetry_ne _ _ _ _ (fun hh => hq hh.symm)
            have h1 := ih (incrRetry m q) false (nodup_keys_setRetry _ _ _ hnd) hp
              (by intro h; cases h)
              (by rw [hget]; omega)
            rw [hget] at h1
            simp only [Bool.cond_false, Nat.sub_zero] at h1
            exact Nat.le_trans (Nat.add_le_add_left (hmono _) _) h1
      | buildSuccess q =>
          rw [pacedForAux] at hp
          rcases Bool.and_eq_true_iff.mp hp with ⟨hd, hrest⟩
          have hq : ¬q = p := of_decide_eq_true hd
          rw [countFailures] at hfut
          rw [schedRetryRun]
          dsimp only [schedRetryStep]
          rw [List.nil_append]
          have hget : getRetry (removeRetry m q) p = getRetry m p :=
            getRetry_filter_ne m q p (fun hh => hq hh.symm)
          have h1 := ih (removeRetry m q) false (nodup_keys_filter _ _ hnd) hrest
            (by intro h; cases h)
            (by rw [hget]; omega)
          rw [hget] at h1
          simp only [Bool.cond_false, Nat.sub_zero] at h1
          exact Nat.le_trans (Nat.add_le_add_left (hmono _) _) h1
      | retryPass =>
          rw [pacedForAux] at hp
          rcases Bool.and_eq_true_iff.mp hp with ⟨hjf, hrest⟩
          have hcnt := hj hjf
          subst hjf
          rw [countFailures] at hfut
          rw [schedRetryRun]
          dsimp only [schedRetryStep]
          rw [List.count_append]
          have h1 := ih m false hnd hrest (by intro h; cases h) (by omega)
          simp only [Bool.cond_false, Nat.sub_zero] at h1
          cases hget : getRetry m p with
          | none => rw [hget] at hcnt; cases hcnt
          | some a =>
              rw [hget] at hcnt h1
              simp only [Option.getD_some] at hcnt h1
              have hcount := count_retry_pass maxRetries m p hnd
              rw [hget] at hcount
              dsimp only at hcount
              simp only [Option.getD_some, Bool.cond_true]
              by_cases hlt : a < maxRetries
              · rw [if_pos hlt] at hcount
                rw [hcount]
                rw [Nat.min_eq_left (Nat.le_of_lt hlt)] at h1
                rw [Nat.min_eq_left (Nat.le_trans (Nat.sub_le a 1) (Nat.le_of_lt hlt))]
                omega
              · rw [if_neg hlt] at hcount
                rw [hcount]
                rw [Nat.min_eq_right (Nat.le_of_not_lt hlt)] at h1
                have hle := Nat.min_le_right (a - 1) maxRetries
                generalize hw : min (a - 1) maxRetries = w at hle ⊢
                omega
      | updateSuccess =>
          rw [pacedForAux] at hp
          cases hp

/-- Claim C4 counterexample: within a single update cycle (the trace contains
no successful update pass, which is the event that clears the retries map),
one `BuildFailure("foo")` followed by four retry passes with no intervening
failure yields four failure-retry `BuildPackage("foo")` emissions, exceeding
`max_retries = 3`: retry passes emit every entry with `attempt <
max_retries` but never advance the counter. -/
theorem retry_emissions_exceed_max_retries :
    (schedRetryRun 3 [] [SchedEvent.buildFailure "foo", SchedEvent.retryPass,
        SchedEvent.retryPass, SchedEvent.retryPass, SchedEvent.retryPass]).2.count "foo" = 4 ∧
    3 < 4 ∧
    ¬SchedEvent.updateSuccess ∈ [SchedEvent.buildFailure "foo", SchedEvent.retryPass,
        SchedEvent.retryPass, SchedEvent.retryPass, SchedEvent.retryPass] := by
  refine ⟨?_, by decide, by decide⟩
  decide

/-- Claim C4 (corrected): the retry mechanism re-emits `BuildPackage` only
for retries entries with `attempt < max_retries`, increments the `u8`
attempt count (wrapping modulo 256) on each `BuildFailure` and removes the
entry on `BuildSuccess`; the per-cycle bound of `max_retries` on
failure-retry emissions of a package p holds under the pacing condition that
every retry pass inside the cycle is immediately preceded by a
`BuildFailure(p)`, no `BuildSuccess(p)` occurs, and at most 255
`BuildFailure(p)` events occur in the cycle (so the `u8` counter never
wraps).  Without pacing, successive retry passes re-emit p unboundedly, as
the counter does not advance on emission; and past 255 failures the counter
wraps back below `max_retries` and further retries are emitted. -/
theorem paced_retry_emissions_le_max_retries (p : Package) (maxRetries : Nat)
    (tr : List SchedEvent) (hp : pacedFor p tr = true)
    (hf : countFailures p tr ≤ 255) :
    (schedRetryRun maxRetries [] tr).2.count p ≤ maxRetries := by
  have h := paced_retry_bound_aux p maxRetries tr [] false List.nodup_nil hp
    (by intro h; cases h) (by simpa [getRetry, Option.getD_none] using hf)
  simpa [getRetry, Option.getD_none, Nat.zero_min] using h

/-- Claim C4 witness: a paced single-cycle trace — three failures of `"foo"`,
each followed by one retry pass — stays within `max_retries = 3` (it emits
two failure retries), and its three failures are below the 256 wrap. -/
theorem paced_retry_emissions_le_max_retries_witness :
    (schedRetryRun 3 [] [SchedEvent.buildFailure "foo", SchedEvent.retryPass,
        SchedEvent.buildFailure "foo", SchedEvent.retryPass,
        SchedEvent.buildFailure "foo", SchedEvent.retryPass]).2.count "foo" ≤ 3 :=
  paced_retry_emissions_le_max_retries "foo" 3
    [SchedEvent.buildFailure "foo", SchedEvent.retryPass,
     SchedEvent.buildFailure "foo", SchedEvent.retryPass,
     SchedEvent.buildFailure "foo", SchedEvent.retryPass] (by decide) (by decide)

end Archie
